import Mathlib

/-!
Shallow embedding of `src/ChatGPT_IOS_parser.py` (class `ConversationExtractor`):
the conversation-tree reconstruction (`parse_tree_node`), the per-document
extraction (`extract_conversation`) and the directory-level run (`extract_all`),
together with proofs of the specification claims about them.

Modelling conventions:
* Python dicts are association lists with first-match lookup and
  update-in-place insertion (`dictLookup` / `dictInsert`).
* `get(key, default)` accesses are pre-applied: a structure field holds the
  defaulted value (`Option` where presence itself matters).
* Timestamps are integers (seconds); a Python `datetime` is modelled as the
  signed number of seconds since 2001-01-01T00:00:00 (the forensic epoch),
  so `datetime(2001,1,1)` is `0` and comparisons agree with `Int` order.
* A document is either `malformed` (any exception while reading/parsing it)
  or a parsed `DocData`.
-/

namespace ChatGPTParser

/-- First-match lookup in an association list (Python `d.get(k)` / `k in d`). -/
def dictLookup {α β : Type} [DecidableEq α] : List (α × β) → α → Option β
  | [], _ => none
  | (k, v) :: rest, a => if a = k then some v else dictLookup rest a

/-- Python dict assignment `d[k] = v`: update in place if the key is present,
otherwise append (insertion order is preserved, as in CPython). -/
def dictInsert {α β : Type} [DecidableEq α] (d : List (α × β)) (k : α) (v : β) :
    List (α × β) :=
  if (dictLookup d k).isSome then
    d.map (fun p => if p.1 = k then (k, v) else p)
  else
    d ++ [(k, v)]

/-- A typed part object (a dict in `parts`), with the `get` defaults of
lines 236-247 already applied: `text`/`asset_pointer` default `''`,
`width`/`height`/`size_bytes` default `0`, `metadata` default `{}`. -/
structure TypedPart where
  content_type : String
  text : String
  asset_pointer : String
  width : Int
  height : Int
  size_bytes : Int
  metadata : List (String × String)
  deriving DecidableEq, Repr

/-- One element of a node's `parts` list (line 232): a plain string, a dict,
or any other JSON value (which the `isinstance` chain ignores). -/
inductive Part where
  | strPart (s : String)
  | dictPart (p : TypedPart)
  | otherPart
  deriving DecidableEq, Repr

/-- The image reference recorded for an `image_asset_pointer` part
(lines 241-247). -/
structure ImageData where
  asset_pointer : String
  width : Int
  height : Int
  size_bytes : Int
  metadata : List (String × String)
  deriving DecidableEq, Repr

/-- The content attached to a node when both `'content' in node` and
`'content' in node['content']` hold (line 223).  `author_role` and
`author_name` carry the defaults `'unknown'` / `''` of lines 226 and 258,
`parts` is `content_data.get('parts', [])`, `create_time` is
`node['content'].get('create_time', 0)` and `metadata` is
`node['content'].get('metadata', {})`. -/
structure NodeContent where
  author_role : String
  author_name : String
  parts : List Part
  create_time : Int
  metadata : List (String × String)
  deriving DecidableEq, Repr

/-- One storage node: `content` is `none` when either level of the
`'content'` check fails, `children` is `node.get('children', [])` and
`created_at` is `node.get('created_at', 0)`. -/
structure Node where
  content : Option NodeContent
  children : List String
  created_at : Int
  deriving DecidableEq, Repr

/-- One reconstructed message (the dict built at lines 253-265).  The
`images` key is present only when the list is non-empty, so the empty list
models its absence; `image_title` is `none` when the key is absent. -/
structure Message where
  id : String
  role : String
  content : String
  timestamp : Int
  author_name : String
  create_time : Int
  images : List ImageData
  image_title : Option String
  deriving DecidableEq, Repr

/-- The image reference built from an `image_asset_pointer` part
(lines 241-247). -/
def imgDataOf (p : TypedPart) : ImageData :=
  { asset_pointer := p.asset_pointer
    width := p.width
    height := p.height
    size_bytes := p.size_bytes
    metadata := p.metadata }

/-- The part loop of lines 232-249: thread the accumulated `text` and
`images` through the parts in order. -/
def processParts : List Part → String → List ImageData → String × List ImageData
  | [], text, images => (text, images)
  | .strPart s :: rest, text, images => processParts rest (text ++ s) images
  | .dictPart p :: rest, text, images =>
    if p.content_type = "text" then
      processParts rest (text ++ p.text) images
    else if p.content_type = "audio_transcription" then
      processParts rest (text ++ p.text) images
    else if p.content_type = "image_asset_pointer" then
      processParts rest (text ++ "[IMAGE_PLACEHOLDER]") (images ++ [imgDataOf p])
    else
      processParts rest text images
  | .otherPart :: rest, text, images => processParts rest text images

/-- Python's `str.strip()`: remove leading and trailing whitespace
(executable over the string's character list). -/
def pyStrip (s : String) : String :=
  ⟨((s.data.dropWhile Char.isWhitespace).reverse.dropWhile
      Char.isWhitespace).reverse⟩

/-- The roles admitted at lines 251 and 311. -/
def allowedRoles : List String := ["user", "assistant", "tool"]

/-- The message-emission block of lines 223-266 for a single node: when the
node carries content, the untrimmed concatenated `text` is non-empty
(Python truthiness) and the role is allowed, one message is produced;
otherwise none. -/
def node_messages (node_id : String) (node : Node) : List Message :=
  match node.content with
  | none => []
  | some c =>
    let r := processParts c.parts "" []
    if r.1 ≠ "" ∧ c.author_role ∈ allowedRoles then
      [{ id := node_id
         role := c.author_role
         content := pyStrip r.1
         timestamp := node.created_at
         author_name := c.author_name
         create_time := c.create_time
         images := r.2
         image_title := if r.2 ≠ [] then dictLookup c.metadata "image_gen_title"
                        else none }]
    else []

/-- Number of storage keys not yet visited; the termination measure of the
traversal (the `visited` set only grows, and only by storage keys). -/
def unvisitedCount (storage : List (String × Node)) (visited : List String) : Nat :=
  ((storage.map Prod.fst).filter (fun k => decide (k ∉ visited))).length

theorem filter_length_mono {α : Type} {p q : α → Bool}
    (h : ∀ a, p a = true → q a = true) :
    ∀ L : List α, (L.filter p).length ≤ (L.filter q).length := by
  intro L
  induction L with
  | nil => simp
  | cons b L ih =>
    by_cases hp : p b = true
    · have hq := h b hp
      simp [List.filter_cons, hp, hq]
      omega
    · have hp' : p b = false := by simpa using hp
      by_cases hq : q b = true
      · simp [List.filter_cons, hp', hq]
        omega
      · have hq' : q b = false := by simpa using hq
        simpa [List.filter_cons, hp', hq'] using ih

theorem filter_length_lt {α : Type} {p q : α → Bool}
    (h : ∀ a, p a = true → q a = true) {a : α} :
    ∀ {L : List α}, a ∈ L → q a = true → p a = false →
      (L.filter p).length < (L.filter q).length := by
  intro L
  induction L with
  | nil => intro ha; cases ha
  | cons b L ih =>
    intro ha hq hp
    rcases List.mem_cons.mp ha with hb | hb
    · subst hb
      have := filter_length_mono h L
      simp [List.filter_cons, hp, hq]
      omega
    · by_cases hpb : p b = true
      · have hqb := h b hpb
        have := ih hb hq hp
        simp [List.filter_cons, hpb, hqb]
        omega
      · have hpb' : p b = false := by simpa using hpb
        by_cases hqb : q b = true
        · have := ih hb hq hp
          simp [List.filter_cons, hpb', hqb]
          omega
        · have hqb' : q b = false := by simpa using hqb
          have := ih hb hq hp
          simpa [List.filter_cons, hpb', hqb'] using this

theorem unvisitedCount_cons_lt {storage : List (String × Node)}
    {visited : List String} {nid : String}
    (hk : nid ∈ storage.map Prod.fst) (hv : nid ∉ visited) :
    unvisitedCount storage (nid :: visited) < unvisitedCount storage visited := by
  unfold unvisitedCount
  apply filter_length_lt (a := nid) ?_ hk (by simpa using hv)
    (by simp)
  intro a ha
  simp only [decide_eq_true_eq] at ha ⊢
  intro hmem
  exact ha (List.mem_cons_of_mem _ hmem)

theorem dictLookup_mem_keys {β : Type} :
    ∀ {d : List (String × β)} {k : String} {v : β},
      dictLookup d k = some v → k ∈ d.map Prod.fst := by
  intro d
  induction d with
  | nil => intro k v h; simp [dictLookup] at h
  | cons p rest ih =>
    intro k v h
    simp only [dictLookup] at h
    by_cases hk : k = p.1
    · simp [hk]
    · simp [hk] at h
      exact List.mem_cons_of_mem _ (ih h)

/-- Depth-first traversal over a work list, mirroring `parse_tree_node`
(lines 211-272): the head node is skipped when already visited or absent
from storage; otherwise it is marked visited, its own messages are emitted,
and its children (in order) are processed before the rest of the work list
with the same, threaded `visited` set.  This is the explicit-work-stack
form of the recursion (the accumulation order — node messages, then each
child's subtree in order — is identical). -/
def parseNodes (storage : List (String × Node)) :
    List String → List String → List Message × List String
  | [], visited => ([], visited)
  | nid :: rest, visited =>
    if hv : nid ∈ visited then
      parseNodes storage rest visited
    else
      match hl : dictLookup storage nid with
      | none => parseNodes storage rest visited
      | some node =>
        let r := parseNodes storage (node.children ++ rest) (nid :: visited)
        (node_messages nid node ++ r.1, r.2)
  termination_by work visited => (unvisitedCount storage visited, work.length)
  decreasing_by
  · apply Prod.Lex.right
    simp
  · apply Prod.Lex.right
    simp
  · apply Prod.Lex.left
    exact unvisitedCount_cons_lt (dictLookup_mem_keys hl) hv

/-- `parse_tree_node(node_id, storage_dict)` with a fresh `visited` set
(line 213): the message sequence reachable from `node_id`. -/
def parse_tree_node (storage : List (String × Node)) (node_id : String) :
    List Message :=
  (parseNodes storage [node_id] []).1

theorem parseNodes_nil (storage : List (String × Node)) (visited : List String) :
    parseNodes storage [] visited = ([], visited) := by
  rw [parseNodes]

theorem parseNodes_cons_mem {storage : List (String × Node)} {nid : String}
    {rest visited : List String} (hv : nid ∈ visited) :
    parseNodes storage (nid :: rest) visited = parseNodes storage rest visited := by
  rw [parseNodes]
  rw [dif_pos hv]

theorem parseNodes_cons_none {storage : List (String × Node)} {nid : String}
    {rest visited : List String} (hv : nid ∉ visited)
    (hl : dictLookup storage nid = none) :
    parseNodes storage (nid :: rest) visited = parseNodes storage rest visited := by
  rw [parseNodes]
  rw [dif_neg hv]
  split
  · rfl
  · rename_i node h
    rw [hl] at h
    cases h

theorem parseNodes_cons_some {storage : List (String × Node)} {nid : String}
    {rest visited : List String} {node : Node} (hv : nid ∉ visited)
    (hl : dictLookup storage nid = some node) :
    parseNodes storage (nid :: rest) visited =
      (node_messages nid node ++
        (parseNodes storage (node.children ++ rest) (nid :: visited)).1,
       (parseNodes storage (node.children ++ rest) (nid :: visited)).2) := by
  rw [parseNodes]
  rw [dif_neg hv]
  split
  · rename_i h
    rw [hl] at h
    cases h
  · rename_i node' h
    rw [hl] at h
    cases h
    rfl

/-- The message list a single node contributes maps to no id or exactly its
own id. -/
theorem node_messages_map_id (nid : String) (node : Node) :
    (node_messages nid node).map Message.id = [] ∨
    (node_messages nid node).map Message.id = [nid] := by
  unfold node_messages
  cases node.content with
  | none => left; rfl
  | some c =>
    by_cases h : (processParts c.parts "" []).1 ≠ "" ∧ c.author_role ∈ allowedRoles
    · right; simp [h]
    · left; simp [h]

/-- Invariant of the traversal: the visited set only grows, every emitted
message id is a newly visited node, and the emitted ids are distinct. -/
theorem parseNodes_invariant (storage : List (String × Node)) :
    ∀ (work visited : List String),
      visited ⊆ (parseNodes storage work visited).2 ∧
      (∀ i ∈ ((parseNodes storage work visited).1.map Message.id),
        i ∈ (parseNodes storage work visited).2 ∧ i ∉ visited) ∧
      ((parseNodes storage work visited).1.map Message.id).Nodup := by
  intro work visited
  induction work, visited using parseNodes.induct storage with
  | case1 visited =>
    simp [parseNodes_nil]
  | case2 nid rest visited hv ih =>
    rw [parseNodes_cons_mem hv]
    exact ih
  | case3 nid rest visited hv hl ih =>
    rw [parseNodes_cons_none hv hl]
    exact ih
  | case4 nid rest visited hv node hl ih =>
    rw [parseNodes_cons_some hv hl]
    obtain ⟨ih1, ih2, ih3⟩ := ih
    refine ⟨?_, ?_, ?_⟩
    · intro x hx
      exact ih1 (List.mem_cons_of_mem _ hx)
    · intro i hi
      rw [List.map_append, List.mem_append] at hi
      rcases hi with hi | hi
      · rcases node_messages_map_id nid node with h | h
        · rw [h] at hi; cases hi
        · rw [h] at hi
          rcases List.mem_singleton.mp hi with rfl
          exact ⟨ih1 (List.mem_cons_self _ _), hv⟩
      · obtain ⟨h1, h2⟩ := ih2 i hi
        exact ⟨h1, fun hc => h2 (List.mem_cons_of_mem _ hc)⟩
    · rw [List.map_append]
      apply List.Nodup.append
      · rcases node_messages_map_id nid node with h | h <;> rw [h] <;> simp
      · exact ih3
      · intro i hi hi'
        rcases node_messages_map_id nid node with h | h
        · rw [h] at hi; cases hi
        · rw [h] at hi
          rcases List.mem_singleton.mp hi with rfl
          exact (ih2 i hi').2 (List.mem_cons_self _ _)

/-- One element of a flat-list `tree.storage` value: a node identifier or a
node object. -/
inductive FlatVal where
  | fid (s : String)
  | fnode (n : Node)
  deriving DecidableEq, Repr

/-- The flat-storage decode loop of lines 295-299: step by two, and pair
`storage[i]` with `storage[i+1]` only when `i + 1 < len(storage)` (so an
odd trailing element is ignored).  A node object at a key position is
unhashable and raises `TypeError` in Python; a bare identifier at a node
position would raise `AttributeError` at the first visit of that node
(failing the file), so both malformed shapes are modelled as `none`, the
file-level failure path. -/
def decodeFlatAux : List FlatVal → List (String × Node) →
    Option (List (String × Node))
  | [], acc => some acc
  | [_], acc => some acc
  | .fid s :: .fnode n :: rest, acc => decodeFlatAux rest (dictInsert acc s n)
  | .fnode _ :: _ :: _, _ => none
  | .fid _ :: .fid _ :: _, _ => none

/-- Decode a flat alternating storage list into the keyed mapping. -/
def decode_flat (l : List FlatVal) : Option (List (String × Node)) :=
  decodeFlatAux l []

/-- The `tree.storage` value (line 291): already keyed, flat list, or any
other JSON type (the `isinstance` chain then leaves `storage_dict` empty). -/
inductive Storage where
  | keyed (d : List (String × Node))
  | flat (l : List FlatVal)
  | other
  deriving Repr

/-- The `tree` object fields read at lines 290-303. -/
structure TreeData where
  storage : Option Storage
  root_node_id : Option String
  current_node_id : Option String

/-- A parsed conversation document: the top-level fields read at
lines 290-327, with `get` defaults for the scalar fields pre-applied
(`creation_date`/`modification_date` default `0`, `is_archived` default
`False`); `Option` records key presence where the code tests it. -/
structure DocData where
  tree : Option TreeData
  current_leaf_node_id : Option String
  title : Option String
  remote_id : Option String
  creation_date : Int
  modification_date : Int
  is_archived : Bool
  last_model : Option String

/-- A document file's content: parsed, or malformed (any exception raised
while reading or decoding it, caught at line 334). -/
inductive Document where
  | malformed
  | parsed (d : DocData)

/-- One file handed to the extractor: its name, path, MD5 digest of its
bytes (an abstract input to the model) and its content. -/
structure FileInput where
  name : String
  path : String
  hash : String
  doc : Document

/-- The record built at lines 318-332. -/
structure ConversationRecord where
  file : String
  file_path : String
  file_hash : String
  title : String
  remote_id : String
  creation_date : Int
  modification_date : Int
  is_archived : Bool
  model : String
  messages : List Message
  message_count : Nat
  user_message_count : Nat
  assistant_message_count : Nat
  deriving DecidableEq, Repr

/-- The mutable `extraction_stats` dict of lines 80-87. -/
structure Stats where
  total_files : Nat
  processed_files : Nat
  failed_files : Nat
  total_conversations : Nat
  total_messages : Nat
  errors : List String
  deriving DecidableEq, Repr

/-- The extractor's mutable state: `self.conversations`,
`self.file_hashes` and `self.extraction_stats`. -/
structure ExtractorState where
  conversations : List ConversationRecord
  file_hashes : List (String × String)
  stats : Stats
  deriving Repr

/-- The state of a freshly constructed `ConversationExtractor`
(lines 76-87). -/
def initState : ExtractorState :=
  { conversations := []
    file_hashes := []
    stats := { total_files := 0, processed_files := 0, failed_files := 0,
               total_conversations := 0, total_messages := 0, errors := [] } }

/-- Python truthiness of the optional root-id candidates at lines 301-306:
`None` and the empty string are falsy. -/
def truthyId : Option String → Bool
  | none => false
  | some s => s ≠ ""

/-- The root-id fallback chain of lines 301-307: `tree.root_node_id`, else
`tree.current_node_id`, else top-level `current_leaf_node_id`, else none. -/
def rootIdOf (d : DocData) : Option String :=
  let r1 := d.tree.bind TreeData.root_node_id
  if truthyId r1 then r1
  else
    let r2 := d.tree.bind TreeData.current_node_id
    if truthyId r2 then r2
    else
      let r3 := d.current_leaf_node_id
      if truthyId r3 then r3 else none

/-- The storage-dict construction of lines 289-299.  `none` is the
exception path (a malformed flat list), which the enclosing `try` turns
into a file failure. -/
def storageDictOf (d : DocData) : Option (List (String × Node)) :=
  match d.tree.bind TreeData.storage with
  | none => some []
  | some (.keyed m) => some m
  | some (.flat l) => decode_flat l
  | some .other => some []

/-- The message ordering key of line 310: ascending `timestamp`.  Python's
`list.sort` is a stable sort; two stable sorts agree on every input, so the
stable `List.insertionSort` models it exactly. -/
def msgLe (a b : Message) : Prop := a.timestamp ≤ b.timestamp

instance : DecidableRel msgLe := fun a b =>
  inferInstanceAs (Decidable (a.timestamp ≤ b.timestamp))

instance : IsTotal Message msgLe := ⟨fun a b => Int.le_total a.timestamp b.timestamp⟩

instance : IsTrans Message msgLe := ⟨fun _ _ _ h1 h2 => Int.le_trans h1 h2⟩

/-- The display filter of lines 251 and 311: non-empty content (Python
truthiness) and an allowed role. -/
def displayFilter (m : Message) : Bool :=
  m.content ≠ "" && allowedRoles.contains m.role

/-- Lines 309-311: reconstruct from the root, sort ascending by timestamp,
then filter. -/
def finalMessages (storage : List (String × Node)) (root : String) :
    List Message :=
  (List.insertionSort msgLe (parse_tree_node storage root)).filter displayFilter

/-- The error string recorded at line 336 (the exception text is abstracted
away). -/
def errMsg (f : FileInput) : String := "Error processing " ++ f.path

/-- `extract_conversation` (lines 274-340): increments `processed_files`,
records the file hash when requested, then either fails (malformed input:
`failed_files` incremented and an error recorded), returns no record (no
resolvable root or no surviving message), or returns the built record and
adds its message count to `total_messages`. -/
def extract_conversation (computeHash : Bool) (f : FileInput)
    (s : ExtractorState) : Option ConversationRecord × ExtractorState :=
  let s1 : ExtractorState :=
    { s with stats := { s.stats with
        processed_files := s.stats.processed_files + 1 } }
  let s2 : ExtractorState :=
    if computeHash then
      { s1 with file_hashes := dictInsert s1.file_hashes f.path f.hash }
    else s1
  let fail : ExtractorState :=
    { s2 with stats := { s2.stats with
        failed_files := s2.stats.failed_files + 1,
        errors := s2.stats.errors ++ [errMsg f] } }
  match f.doc with
  | .malformed => (none, fail)
  | .parsed d =>
    match storageDictOf d with
    | none => (none, fail)
    | some storage =>
      match rootIdOf d with
      | none => (none, s2)
      | some root =>
        let messages := finalMessages storage root
        if messages = [] then (none, s2)
        else
          let s3 : ExtractorState :=
            { s2 with stats := { s2.stats with
                total_messages := s2.stats.total_messages + messages.length } }
          (some
            { file := f.name
              file_path := f.path
              file_hash := (dictLookup s2.file_hashes f.path).getD "Not computed"
              title := d.title.getD "Untitled Conversation"
              remote_id := d.remote_id.getD ""
              creation_date := d.creation_date
              modification_date := d.modification_date
              is_archived := d.is_archived
              model := d.last_model.getD "unknown"
              messages := messages
              message_count := messages.length
              user_message_count := (messages.filter (fun m => m.role = "user")).length
              assistant_message_count :=
                (messages.filter (fun m => m.role = "assistant")).length },
           s3)

/-- `cocoa_to_datetime` (lines 371-377), with a `datetime` modelled as
seconds since 2001-01-01T00:00:00: timestamp `0` maps to the epoch itself,
any other value is added to the epoch. -/
def cocoa_epoch : Int := 0

def cocoa_to_datetime (cocoa_timestamp : Int) : Int :=
  if cocoa_timestamp = 0 then cocoa_epoch
  else cocoa_epoch + cocoa_timestamp

/-- Line 356: `date_from and conv_date < date_from` (datetimes are always
truthy, so the guard is key presence). -/
def beforeFrom (dateFrom : Option Int) (convDate : Int) : Bool :=
  match dateFrom with
  | some df => decide (convDate < df)
  | none => false

/-- Line 358: `date_to and conv_date > date_to`. -/
def afterTo (dateTo : Option Int) (convDate : Int) : Bool :=
  match dateTo with
  | some dt => decide (dt < convDate)
  | none => false

/-- The per-file body of the `extract_all` loop (lines 350-361): extract,
then append the record unless a supplied date bound excludes it. -/
def extractAllStep (computeHash : Bool) (dateFrom dateTo : Option Int)
    (f : FileInput) (s : ExtractorState) : ExtractorState :=
  let r := extract_conversation computeHash f s
  match r.1 with
  | none => r.2
  | some conv =>
    if dateFrom.isSome || dateTo.isSome then
      let convDate := cocoa_to_datetime conv.creation_date
      if beforeFrom dateFrom convDate then r.2
      else if afterTo dateTo convDate then r.2
      else { r.2 with conversations := r.2.conversations ++ [conv] }
    else { r.2 with conversations := r.2.conversations ++ [conv] }

def extractAllLoop (computeHash : Bool) (dateFrom dateTo : Option Int) :
    List FileInput → ExtractorState → ExtractorState
  | [], s => s
  | f :: rest, s =>
    extractAllLoop computeHash dateFrom dateTo rest
      (extractAllStep computeHash dateFrom dateTo f s)

/-- The conversation ordering key of line 363: descending `creation_date`
(Python's stable sort with `reverse=True` keeps the original order of
records with equal keys, as the stable `List.insertionSort` does). -/
def convLe (a b : ConversationRecord) : Prop := b.creation_date ≤ a.creation_date

instance : DecidableRel convLe := fun a b =>
  inferInstanceAs (Decidable (b.creation_date ≤ a.creation_date))

/-- `extract_all` (lines 342-369) on a fresh extractor: set `total_files`,
process every file, sort the collection descending by `creation_date`, and
record the final conversation count. -/
def extract_all (computeHash : Bool) (dateFrom dateTo : Option Int)
    (files : List FileInput) : ExtractorState :=
  let s0 : ExtractorState :=
    { initState with stats := { initState.stats with
        total_files := files.length } }
  let s1 := extractAllLoop computeHash dateFrom dateTo files s0
  let sorted := List.insertionSort convLe s1.conversations
  { s1 with
    conversations := sorted
    stats := { s1.stats with total_conversations := sorted.length } }

/-- Interleave keyed pairs into the flat alternating storage encoding
`[id_0, node_0, id_1, node_1, …]`. -/
def flatOf : List (String × Node) → List FlatVal
  | [] => []
  | (k, n) :: rest => .fid k :: .fnode n :: flatOf rest

/-- The keyed mapping equivalent to a pair list: the dict built by
assigning each pair in order (last assignment wins on a repeated id). -/
def dictOf (ps : List (String × Node)) : List (String × Node) :=
  ps.foldl (fun d p => dictInsert d p.1 p.2) []

theorem decodeFlatAux_flatOf (t : Option FlatVal) :
    ∀ (ps : List (String × Node)) (acc : List (String × Node)),
      decodeFlatAux (flatOf ps ++ t.toList) acc =
        some (ps.foldl (fun d p => dictInsert d p.1 p.2) acc) := by
  intro ps
  induction ps with
  | nil =>
    intro acc
    cases t <;> simp [flatOf, decodeFlatAux]
  | cons p rest ih =>
    intro acc
    obtain ⟨k, n⟩ := p
    simpa [flatOf, decodeFlatAux] using ih (dictInsert acc k n)

/-! ### Spec-side definitions

These two definitions follow the claims' wording (per-part contribution to
the concatenated text and to the collected image list), to be compared with
the accumulator-threading loop `processParts` taken from the source. -/

/-- Per-part text contribution, as the spec words it: a plain string part
verbatim; a typed part of type `text` or `audio_transcription` its `text`
field; an `image_asset_pointer` part the literal marker; anything else
nothing. -/
def partContribText : Part → String
  | .strPart s => s
  | .dictPart p =>
    if p.content_type = "text" then p.text
    else if p.content_type = "audio_transcription" then p.text
    else if p.content_type = "image_asset_pointer" then "[IMAGE_PLACEHOLDER]"
    else ""
  | .otherPart => ""

/-- Per-part image contribution, as the spec words it: an
`image_asset_pointer` part records one image reference, anything else
none. -/
def partContribImages : Part → List ImageData
  | .dictPart p =>
    if p.content_type = "image_asset_pointer" then [imgDataOf p] else []
  | _ => []

theorem string_foldl_append (L : List String) :
    ∀ s : String, List.foldl (· ++ ·) s L = s ++ List.foldl (· ++ ·) "" L := by
  induction L with
  | nil => intro s; simp
  | cons a L ih =>
    intro s
    simp only [List.foldl_cons, String.empty_append]
    rw [ih (s ++ a), ih a]
    simp [String.append_assoc]

theorem string_join_cons (a : String) (L : List String) :
    String.join (a :: L) = a ++ String.join L := by
  simp only [String.join, List.foldl_cons]
  simpa using string_foldl_append L a

theorem processParts_spec :
    ∀ (parts : List Part) (text : String) (images : List ImageData),
      processParts parts text images =
        (text ++ String.join (parts.map partContribText),
         images ++ (parts.map partContribImages).flatten) := by
  intro parts
  induction parts with
  | nil =>
    intro text images
    simp [processParts, String.join]
  | cons p rest ih =>
    intro text images
    cases p with
    | strPart s =>
      simp [processParts, partContribText, partContribImages, ih,
        string_join_cons, String.append_assoc]
    | dictPart q =>
      by_cases h1 : q.content_type = "text"
      · simp [processParts, partContribText, partContribImages, h1, ih,
          string_join_cons, String.append_assoc]
      · by_cases h2 : q.content_type = "audio_transcription"
        · simp [processParts, partContribText, partContribImages, h1, h2, ih,
            string_join_cons, String.append_assoc]
        · by_cases h3 : q.content_type = "image_asset_pointer"
          · simp [processParts, partContribText, partContribImages, h1, h2, h3,
              ih, string_join_cons, String.append_assoc]
          · simp [processParts, partContribText, partContribImages, h1, h2, h3,
              ih, string_join_cons]
    | otherPart =>
      simp [processParts, partContribText, partContribImages, ih,
        string_join_cons]

/-- The `parts` example of the spec: `["hello ", {type: text, text: "world"}]`. -/
def helloTextPart : TypedPart :=
  { content_type := "text", text := "world", asset_pointer := "", width := 0,
    height := 0, size_bytes := 0, metadata := [] }

def helloNode : Node :=
  { content := some
      { author_role := "user", author_name := "",
        parts := [.strPart "hello ", .dictPart helloTextPart],
        create_time := 0, metadata := [] }
    children := []
    created_at := 5 }

/-! ### Helper lemmas about the extraction layer -/

theorem dictLookup_dictInsert_self {α β : Type} [DecidableEq α]
    (d : List (α × β)) (k : α) (v : β) :
    dictLookup (dictInsert d k v) k = some v := by
  induction d with
  | nil => simp [dictInsert, dictLookup]
  | cons p rest ih =>
    obtain ⟨hk, hv⟩ := p
    by_cases h1 : k = hk
    · subst h1
      simp [dictInsert, dictLookup]
    · by_cases h2 : (dictLookup rest k).isSome
      · have : dictLookup ((hk, hv) :: rest) k = dictLookup rest k := by
          simp [dictLookup, h1]
        unfold dictInsert
        rw [this, if_pos h2]
        have hne : ¬ (hk = k) := fun hcon => h1 hcon.symm
        simp only [List.map_cons, hne, if_false]
        have : dictLookup ((hk, hv) ::
            rest.map (fun p => if p.1 = k then (k, v) else p)) k =
            dictLookup (rest.map (fun p => if p.1 = k then (k, v) else p)) k := by
          simp [dictLookup, h1]
        rw [this]
        have ihh := ih
        unfold dictInsert at ihh
        rw [if_pos h2] at ihh
        exact ihh
      · have : dictLookup ((hk, hv) :: rest) k = dictLookup rest k := by
          simp [dictLookup, h1]
        unfold dictInsert
        rw [this, if_neg h2]
        have : dictLookup (((hk, hv) :: rest) ++ [(k, v)]) k =
            dictLookup (rest ++ [(k, v)]) k := by
          simp [dictLookup, h1]
        rw [this]
        have ihh := ih
        unfold dictInsert at ihh
        rw [if_neg h2] at ihh
        exact ihh

/-- `extract_conversation` never touches `self.conversations`. -/
theorem extract_conversation_conversations (ch : Bool) (f : FileInput)
    (s : ExtractorState) :
    ((extract_conversation ch f s).2).conversations = s.conversations := by
  obtain ⟨name, path, hash, doc⟩ := f
  cases doc with
  | malformed => cases ch <;> simp [extract_conversation]
  | parsed d =>
    cases hsd : storageDictOf d with
    | none => cases ch <;> simp [extract_conversation, hsd]
    | some storage =>
      cases hr : rootIdOf d with
      | none => cases ch <;> simp [extract_conversation, hsd, hr]
      | some root =>
        by_cases hm : finalMessages storage root = [] <;>
          cases ch <;> simp [extract_conversation, hsd, hr, hm]

/-- `processed_files` is incremented exactly once, as the first statement
of the `try` block, on every call. -/
theorem extract_conversation_processed (ch : Bool) (f : FileInput)
    (s : ExtractorState) :
    ((extract_conversation ch f s).2).stats.processed_files =
      s.stats.processed_files + 1 := by
  obtain ⟨name, path, hash, doc⟩ := f
  cases doc with
  | malformed => cases ch <;> simp [extract_conversation]
  | parsed d =>
    cases hsd : storageDictOf d with
    | none => cases ch <;> simp [extract_conversation, hsd]
    | some storage =>
      cases hr : rootIdOf d with
      | none => cases ch <;> simp [extract_conversation, hsd, hr]
      | some root =>
        by_cases hm : finalMessages storage root = [] <;>
          cases ch <;> simp [extract_conversation, hsd, hr, hm]

/-- `failed_files` grows by at most one per call. -/
theorem extract_conversation_failed_le (ch : Bool) (f : FileInput)
    (s : ExtractorState) :
    ((extract_conversation ch f s).2).stats.failed_files ≤
      s.stats.failed_files + 1 := by
  obtain ⟨name, path, hash, doc⟩ := f
  cases doc with
  | malformed => cases ch <;> simp [extract_conversation]
  | parsed d =>
    cases hsd : storageDictOf d with
    | none => cases ch <;> simp [extract_conversation, hsd]
    | some storage =>
      cases hr : rootIdOf d with
      | none => cases ch <;> simp [extract_conversation, hsd, hr]
      | some root =>
        by_cases hm : finalMessages storage root = [] <;>
          cases ch <;> simp [extract_conversation, hsd, hr, hm]

/-- When a record is returned, the failure counters are untouched. -/
theorem extract_conversation_some_stats (ch : Bool) (f : FileInput)
    (s : ExtractorState) (r : ConversationRecord)
    (h : (extract_conversation ch f s).1 = some r) :
    ((extract_conversation ch f s).2).stats.failed_files =
      s.stats.failed_files ∧
    ((extract_conversation ch f s).2).stats.errors = s.stats.errors := by
  obtain ⟨name, path, hash, doc⟩ := f
  cases doc with
  | malformed => cases ch <;> simp [extract_conversation] at h
  | parsed d =>
    cases hsd : storageDictOf d with
    | none => cases ch <;> simp [extract_conversation, hsd] at h
    | some storage =>
      cases hr : rootIdOf d with
      | none => cases ch <;> simp [extract_conversation, hsd, hr] at h
      | some root =>
        by_cases hm : finalMessages storage root = [] <;>
          cases ch <;> simp [extract_conversation, hsd, hr, hm] at h ⊢

/-- The returned record (when any) depends only on the file, not on the
accumulated state, when hashes are computed: the record's `file_hash` field
reads back the hash inserted for this very file. -/
theorem extract_conversation_fst_indep (f : FileInput)
    (s t : ExtractorState) :
    (extract_conversation true f s).1 = (extract_conversation true f t).1 := by
  obtain ⟨name, path, hash, doc⟩ := f
  cases doc with
  | malformed => simp [extract_conversation]
  | parsed d =>
    cases hsd : storageDictOf d with
    | none => simp [extract_conversation, hsd]
    | some storage =>
      cases hr : rootIdOf d with
      | none => simp [extract_conversation, hsd, hr]
      | some root =>
        by_cases hm : finalMessages storage root = [] <;>
          simp [extract_conversation, hsd, hr, hm, dictLookup_dictInsert_self]

/-- The messages of any returned record are the sorted-and-filtered
reconstruction of some storage and root. -/
theorem extract_conversation_messages (ch : Bool) (f : FileInput)
    (s : ExtractorState) (r : ConversationRecord)
    (h : (extract_conversation ch f s).1 = some r) :
    ∃ storage root, r.messages = finalMessages storage root := by
  obtain ⟨name, path, hash, doc⟩ := f
  cases doc with
  | malformed => cases ch <;> simp [extract_conversation] at h
  | parsed d =>
    cases hsd : storageDictOf d with
    | none => cases ch <;> simp [extract_conversation, hsd] at h
    | some storage =>
      cases hr : rootIdOf d with
      | none => cases ch <;> simp [extract_conversation, hsd, hr] at h
      | some root =>
        by_cases hm : finalMessages storage root = [] <;>
          cases ch <;> simp [extract_conversation, hsd, hr, hm] at h <;>
          exact ⟨storage, root, by rw [← h]⟩

/-- Closed form of a successful `extract_conversation` call on a fresh
extractor. -/
theorem extract_conversation_initState_eval {f : FileInput} {d : DocData}
    (storage : List (String × Node)) (root : String)
    (hf : f.doc = .parsed d) (hsd : storageDictOf d = some storage)
    (hr : rootIdOf d = some root) (hne : finalMessages storage root ≠ []) :
    (extract_conversation true f initState).1 = some
      { file := f.name, file_path := f.path, file_hash := f.hash,
        title := d.title.getD "Untitled Conversation",
        remote_id := d.remote_id.getD "",
        creation_date := d.creation_date,
        modification_date := d.modification_date,
        is_archived := d.is_archived,
        model := d.last_model.getD "unknown",
        messages := finalMessages storage root,
        message_count := (finalMessages storage root).length,
        user_message_count :=
          ((finalMessages storage root).filter (fun m => m.role = "user")).length,
        assistant_message_count :=
          ((finalMessages storage root).filter
            (fun m => m.role = "assistant")).length } := by
  obtain ⟨name, path, hash, doc⟩ := f
  subst hf
  simp [extract_conversation, hsd, hr, hne, initState, dictInsert, dictLookup]

/-! ### The claims -/

/-- Claim C1: for every storage mapping and start id — cyclic children
references included — reconstruction terminates (`parse_tree_node` is a
total function, accepted by well-founded recursion on the number of
unvisited storage keys) and no two messages in the result carry the same
node id. -/
theorem claim_C1 (storage : List (String × Node)) (startId : String) :
    ((parse_tree_node storage startId).map Message.id).Nodup :=
  (parseNodes_invariant storage [startId] []).2.2

/-- Claim C2: decoding a flat alternating storage sequence
`[id_0, node_0, id_1, node_1, …]` — with an optional odd trailing element,
which is ignored — yields exactly the keyed mapping of its pairs, and hence
reconstruction from the decoded storage agrees with reconstruction from
the equivalent already-keyed mapping, for every start id. -/
theorem claim_C2 (ps : List (String × Node)) (t : Option FlatVal)
    (startId : String) :
    decode_flat (flatOf ps ++ t.toList) = some (dictOf ps) ∧
    (decode_flat (flatOf ps ++ t.toList)).map
        (fun m => parse_tree_node m startId) =
      some (parse_tree_node (dictOf ps) startId) := by
  have h : decode_flat (flatOf ps ++ t.toList) = some (dictOf ps) := by
    unfold decode_flat dictOf
    exact decodeFlatAux_flatOf t ps []
  exact ⟨h, by rw [h]; rfl⟩

/-- Claim C4: a message's content is the in-order concatenation of the
per-part contributions (plain strings verbatim, `text` and
`audio_transcription` parts their `text` field, `image_asset_pointer`
parts the literal `[IMAGE_PLACEHOLDER]` marker while recording one image
reference, anything else nothing), and the parts
`["hello ", {type: text, text: "world"}]` yield content `"hello world"`. -/
theorem claim_C4 :
    (∀ parts : List Part,
      processParts parts "" [] =
        (String.join (parts.map partContribText),
         (parts.map partContribImages).flatten)) ∧
    node_messages "m" helloNode =
      [{ id := "m", role := "user", content := "hello world", timestamp := 5,
         author_name := "", create_time := 0, images := [],
         image_title := none }] := by
  constructor
  · intro parts
    simpa using processParts_spec parts "" []
  · decide

/-- A node whose parts concatenate to whitespace-only text. -/
def wsContent : NodeContent :=
  { author_role := "user", author_name := "", parts := [.strPart " "],
    create_time := 0, metadata := [] }

def wsNode : Node :=
  { content := some wsContent, children := [], created_at := 0 }

/-- Claim C3, counterexample: the emission test at line 251 is on the
UNtrimmed text, so a node whose parts concatenate to the whitespace-only
`" "` DOES emit a Message (whose content then strips to the empty string),
contradicting the claim that such a node emits no Message. -/
theorem claim_C3_counterexample :
    (parse_tree_node [("a", wsNode)] "a").length = 1 ∧
    (parse_tree_node [("a", wsNode)] "a").map Message.content = [""] := by
  have h : parse_tree_node [("a", wsNode)] "a" =
      [{ id := "a", role := "user", content := "", timestamp := 0,
         author_name := "", create_time := 0, images := [],
         image_title := none }] := by
    unfold parse_tree_node
    rw [parseNodes_cons_some (by simp) (by rfl)]
    simp only [show wsNode.children = [] from rfl, List.nil_append,
      parseNodes_nil]
    decide
  rw [h]
  decide

/-- Claim C3, amended: a content-carrying node emits a Message exactly when
the UNtrimmed concatenated text is non-empty and the role is one of
user/assistant/tool (so whitespace-only parts do emit a Message, whose
content strips to empty and is removed later by `extract_conversation`'s
filter); an emitted Message's content is the stripped text, with the
collected images and the metadata image title attached when images are
present. -/
theorem claim_C3 (nid : String) (node : Node) (c : NodeContent)
    (hc : node.content = some c) :
    ((node_messages nid node ≠ []) ↔
      ((processParts c.parts "" []).1 ≠ "" ∧ c.author_role ∈ allowedRoles)) ∧
    (∀ m ∈ node_messages nid node,
      m.content = pyStrip (processParts c.parts "" []).1 ∧
      m.images = (processParts c.parts "" []).2 ∧
      m.image_title = (if (processParts c.parts "" []).2 ≠ []
        then dictLookup c.metadata "image_gen_title" else none) ∧
      m.role = c.author_role) := by
  have key : node_messages nid node =
      if (processParts c.parts "" []).1 ≠ "" ∧ c.author_role ∈ allowedRoles then
        [{ id := nid
           role := c.author_role
           content := pyStrip (processParts c.parts "" []).1
           timestamp := node.created_at
           author_name := c.author_name
           create_time := c.create_time
           images := (processParts c.parts "" []).2
           image_title := if (processParts c.parts "" []).2 ≠ [] then
               dictLookup c.metadata "image_gen_title"
             else none }]
      else [] := by
    unfold node_messages
    rw [hc]
  by_cases h : (processParts c.parts "" []).1 ≠ "" ∧ c.author_role ∈ allowedRoles
  · rw [key, if_pos h]
    refine ⟨by simp [h], ?_⟩
    intro m hm
    rcases List.mem_singleton.mp hm with rfl
    exact ⟨rfl, rfl, rfl, rfl⟩
  · rw [key, if_neg h]
    refine ⟨by simp [h], ?_⟩
    intro m hm
    cases hm

/-- Claim C3, witness: the whitespace-only example instantiating the
amended claim. -/
theorem claim_C3_witness :
    wsNode.content = some wsContent ∧
    (((node_messages "a" wsNode ≠ []) ↔
      ((processParts wsContent.parts "" []).1 ≠ "" ∧
        wsContent.author_role ∈ allowedRoles)) ∧
    (∀ m ∈ node_messages "a" wsNode,
      m.content = pyStrip (processParts wsContent.parts "" []).1 ∧
      m.images = (processParts wsContent.parts "" []).2 ∧
      m.image_title = (if (processParts wsContent.parts "" []).2 ≠ []
        then dictLookup wsContent.metadata "image_gen_title" else none) ∧
      m.role = wsContent.author_role)) :=
  ⟨rfl, claim_C3 "a" wsNode wsContent rfl⟩

/-- Claim C5: three qualifying nodes reachable in traversal order with
timestamps 300, 100, 200. -/
def c5content : NodeContent :=
  { author_role := "user", author_name := "", parts := [.strPart "x"],
    create_time := 0, metadata := [] }

def c5nodeA : Node :=
  { content := some c5content, children := ["n2"], created_at := 300 }

def c5nodeB : Node :=
  { content := some c5content, children := ["n3"], created_at := 100 }

def c5nodeC : Node :=
  { content := some c5content, children := [], created_at := 200 }

def c5storage : List (String × Node) :=
  [("n1", c5nodeA), ("n2", c5nodeB), ("n3", c5nodeC)]

def c5msg (i : String) (ts : Int) : Message :=
  { id := i, role := "user", content := "x", timestamp := ts,
    author_name := "", create_time := 0, images := [], image_title := none }

def c5tree : TreeData :=
  { storage := some (.keyed c5storage)
    root_node_id := some "n1"
    current_node_id := none }

def c5doc : DocData :=
  { tree := some c5tree
    current_leaf_node_id := none
    title := some "T"
    remote_id := some "rid"
    creation_date := 10
    modification_date := 11
    is_archived := false
    last_model := some "gpt" }

def c5file : FileInput :=
  { name := "c5.json", path := "/d/c5.json", hash := "h5",
    doc := .parsed c5doc }

def c5rec : ConversationRecord :=
  { file := "c5.json", file_path := "/d/c5.json", file_hash := "h5",
    title := "T", remote_id := "rid", creation_date := 10,
    modification_date := 11, is_archived := false, model := "gpt",
    messages := [c5msg "n2" 100, c5msg "n3" 200, c5msg "n1" 300],
    message_count := 3, user_message_count := 3,
    assistant_message_count := 0 }

theorem c5_finalMessages :
    finalMessages c5storage "n1" =
      [c5msg "n2" 100, c5msg "n3" 200, c5msg "n1" 300] := by
  have h : parse_tree_node c5storage "n1" =
      [c5msg "n1" 300, c5msg "n2" 100, c5msg "n3" 200] := by
    simp [parse_tree_node, parseNodes_cons_some, parseNodes_nil, dictLookup,
      c5storage, c5nodeA, c5nodeB, c5nodeC, c5content, c5msg, node_messages,
      processParts, allowedRoles, pyStrip]
  unfold finalMessages
  rw [h]
  decide

/-- Claim C5: every record returned by `extract_conversation` carries a
message list sorted ascending by timestamp in which every message has
non-empty content and an allowed role. -/
theorem claim_C5 (ch : Bool) (f : FileInput) (s : ExtractorState)
    (r : ConversationRecord)
    (h : (extract_conversation ch f s).1 = some r) :
    List.Sorted msgLe r.messages ∧
    ∀ m ∈ r.messages, m.content ≠ "" ∧ m.role ∈ allowedRoles := by
  obtain ⟨storage, root, hmsg⟩ :=
    extract_conversation_messages ch f s r h
  rw [hmsg]
  unfold finalMessages
  constructor
  · exact (List.sorted_insertionSort msgLe _).filter _
  · intro m hm
    have hp := List.of_mem_filter hm
    simpa [displayFilter, allowedRoles] using hp

/-- Claim C5, witness: timestamps [300, 100, 200] in traversal order come
out ordered [100, 200, 300]. -/
theorem claim_C5_witness :
    (extract_conversation true c5file initState).1 = some c5rec ∧
    (List.Sorted msgLe c5rec.messages ∧
      ∀ m ∈ c5rec.messages, m.content ≠ "" ∧ m.role ∈ allowedRoles) := by
  have h : (extract_conversation true c5file initState).1 = some c5rec := by
    have he := extract_conversation_initState_eval (f := c5file) (d := c5doc)
      c5storage "n1" rfl (by rfl) (by rfl)
      (by rw [c5_finalMessages]; decide)
    rw [he, c5_finalMessages]
    decide
  exact ⟨h, claim_C5 true c5file initState c5rec h⟩

/-- Claim C6: a non-emitting parent with a contributing child. -/
def sysContent : NodeContent :=
  { author_role := "system", author_name := "", parts := [.strPart "sys"],
    create_time := 0, metadata := [] }

def sysNode : Node :=
  { content := some sysContent, children := ["c"], created_at := 1 }

def childNode : Node :=
  { content := some
      { author_role := "user", author_name := "", parts := [.strPart "hi"],
        create_time := 0, metadata := [] }
    children := []
    created_at := 2 }

def c6storage : List (String × Node) :=
  [("p", sysNode), ("c", childNode)]

/-- Claim C6: a start id absent from the mapping yields the empty sequence,
and a node that emits no Message still has all of its children traversed,
in order, with the same visited set (the traversal continues on
`node.children` with `startId` marked visited). -/
theorem claim_C6 :
    (∀ (storage : List (String × Node)) (startId : String),
      dictLookup storage startId = none →
      parse_tree_node storage startId = []) ∧
    (∀ (storage : List (String × Node)) (startId : String) (node : Node),
      dictLookup storage startId = some node →
      node_messages startId node = [] →
      parse_tree_node storage startId =
        (parseNodes storage node.children [startId]).1) := by
  constructor
  · intro storage startId h
    unfold parse_tree_node
    rw [parseNodes_cons_none (by simp) h, parseNodes_nil]
  · intro storage startId node h hm
    unfold parse_tree_node
    rw [parseNodes_cons_some (by simp) h, hm]
    simp

/-- Claim C6, witness: the system-role parent emits nothing, its traversal
continues into the child, and the child's message survives; an absent
start id yields `[]`. -/
theorem claim_C6_witness :
    (dictLookup c6storage "zz" = none ∧ parse_tree_node c6storage "zz" = []) ∧
    (dictLookup c6storage "p" = some sysNode ∧
      node_messages "p" sysNode = [] ∧
      parse_tree_node c6storage "p" =
        (parseNodes c6storage sysNode.children ["p"]).1) ∧
    parse_tree_node c6storage "p" =
      [{ id := "c", role := "user", content := "hi", timestamp := 2,
         author_name := "", create_time := 0, images := [],
         image_title := none }] := by
  refine ⟨⟨by rfl, claim_C6.1 c6storage "zz" (by rfl)⟩,
    ⟨by rfl, by decide, claim_C6.2 c6storage "p" sysNode (by rfl) (by decide)⟩,
    ?_⟩
  simp [parse_tree_node, parseNodes_cons_some, parseNodes_nil, dictLookup,
    c6storage, sysNode, childNode, sysContent, node_messages, processParts,
    allowedRoles, pyStrip]

/-! ### The `extract_all` loop, step by step -/

theorem extractAllStep_none {ch : Bool} {f : FileInput} {s : ExtractorState}
    (dfo dto : Option Int) (h : (extract_conversation ch f s).1 = none) :
    extractAllStep ch dfo dto f s = (extract_conversation ch f s).2 := by
  unfold extractAllStep
  simp [h]

theorem extractAllStep_some_dates {ch : Bool} {f : FileInput}
    {s : ExtractorState} {conv : ConversationRecord} (df dt : Int)
    (h : (extract_conversation ch f s).1 = some conv) :
    extractAllStep ch (some df) (some dt) f s =
      if cocoa_to_datetime conv.creation_date < df ∨
          dt < cocoa_to_datetime conv.creation_date then
        (extract_conversation ch f s).2
      else
        { (extract_conversation ch f s).2 with
          conversations :=
            ((extract_conversation ch f s).2).conversations ++ [conv] } := by
  unfold extractAllStep
  simp only [h]
  by_cases h1 : cocoa_to_datetime conv.creation_date < df
  · simp [beforeFrom, h1]
  · by_cases h2 : dt < cocoa_to_datetime conv.creation_date
    · simp [beforeFrom, afterTo, h1, h2]
    · simp [beforeFrom, afterTo, h1, h2]

theorem extractAllStep_some_nodates {ch : Bool} {f : FileInput}
    {s : ExtractorState} {conv : ConversationRecord}
    (h : (extract_conversation ch f s).1 = some conv) :
    extractAllStep ch none none f s =
      { (extract_conversation ch f s).2 with
        conversations :=
          ((extract_conversation ch f s).2).conversations ++ [conv] } := by
  unfold extractAllStep
  simp [h]

theorem extractAllLoop_single {f : FileInput} {s : ExtractorState}
    {r : ConversationRecord} (df dt : Int)
    (hs : (extract_conversation true f s).1 = some r) :
    (extractAllLoop true (some df) (some dt) [f] s).conversations =
      if df ≤ cocoa_to_datetime r.creation_date ∧
          cocoa_to_datetime r.creation_date ≤ dt then
        s.conversations ++ [r]
      else s.conversations := by
  simp only [extractAllLoop]
  rw [extractAllStep_some_dates df dt hs]
  have hconv := extract_conversation_conversations true f s
  by_cases h1 : cocoa_to_datetime r.creation_date < df
  · rw [if_pos (Or.inl h1), if_neg (by omega)]
    exact hconv
  · by_cases h2 : dt < cocoa_to_datetime r.creation_date
    · rw [if_pos (Or.inr h2), if_neg (by omega)]
      exact hconv
    · rw [if_neg (by omega), if_pos (by omega)]
      simp [hconv]

/-- The single-file run with both date bounds supplied: the record is kept
exactly when its converted creation datetime lies between the two bound
datetimes. -/
theorem extract_all_singleton (f : FileInput) (df dt : Int)
    (r : ConversationRecord)
    (h : (extract_conversation true f initState).1 = some r) :
    (extract_all true (some df) (some dt) [f]).conversations =
      if df ≤ cocoa_to_datetime r.creation_date ∧
          cocoa_to_datetime r.creation_date ≤ dt then [r] else [] := by
  simp only [extract_all]
  rw [extractAllLoop_single df dt
    ((extract_conversation_fst_indep f _ initState).trans h)]
  by_cases hc : df ≤ cocoa_to_datetime r.creation_date ∧
      cocoa_to_datetime r.creation_date ≤ dt
  · rw [if_pos hc, if_pos hc]
    simp [initState]
  · rw [if_neg hc, if_neg hc]
    simp [initState]

/-- Claim C7: the dates of the spec's example, as datetimes (seconds since
the forensic epoch) at midnight of each calendar day.  2025-01-01 is day
8766 after 2001-01-01 (24 years of which 6 are leap). -/
def date20250101 : Int := 8766 * 86400

def date20250110 : Int := 8775 * 86400

def date20250115 : Int := 8780 * 86400

def date20250131 : Int := 8796 * 86400

/-- Modelled from the spec: the calendar date a datetime converts to, as a
whole day index since the forensic epoch (what "converted to a calendar
date" denotes; the source compares full datetimes instead). -/
def calendarDay (d : Int) : Int := d / 86400

/-- A well-formed single-message document, parameterised by creation date. -/
def simpleContent : NodeContent :=
  { author_role := "user", author_name := "", parts := [.strPart "hi"],
    create_time := 7, metadata := [] }

def simpleNode : Node :=
  { content := some simpleContent, children := [], created_at := 42 }

def goodTree : TreeData :=
  { storage := some (.keyed [("r", simpleNode)])
    root_node_id := some "r"
    current_node_id := none }

def simpleDoc (creation : Int) : DocData :=
  { tree := some goodTree
    current_leaf_node_id := none
    title := none
    remote_id := none
    creation_date := creation
    modification_date := 60
    is_archived := false
    last_model := none }

def simpleMsg : Message :=
  { id := "r", role := "user", content := "hi", timestamp := 42,
    author_name := "", create_time := 7, images := [], image_title := none }

theorem simple_finalMessages :
    finalMessages [("r", simpleNode)] "r" = [simpleMsg] := by
  have h : parse_tree_node [("r", simpleNode)] "r" = [simpleMsg] := by
    simp [parse_tree_node, parseNodes_cons_some, parseNodes_nil, dictLookup,
      simpleNode, simpleContent, simpleMsg, node_messages, processParts,
      allowedRoles, pyStrip]
  unfold finalMessages
  rw [h]
  decide

def simpleFile (nm : String) (creation : Int) : FileInput :=
  { name := nm, path := "/d/" ++ nm, hash := "abc",
    doc := .parsed (simpleDoc creation) }

def simpleRec (nm : String) (creation : Int) : ConversationRecord :=
  { file := nm, file_path := "/d/" ++ nm, file_hash := "abc",
    title := "Untitled Conversation", remote_id := "",
    creation_date := creation, modification_date := 60,
    is_archived := false, model := "unknown",
    messages := [simpleMsg], message_count := 1,
    user_message_count := 1, assistant_message_count := 0 }

theorem simpleFile_extracts (nm : String) (creation : Int) :
    (extract_conversation true (simpleFile nm creation) initState).1 =
      some (simpleRec nm creation) := by
  have he := extract_conversation_initState_eval
    (f := simpleFile nm creation) (d := simpleDoc creation)
    [("r", simpleNode)] "r" rfl (by rfl) (by rfl)
    (by rw [simple_finalMessages]; decide)
  rw [he, simple_finalMessages]
  rfl

/-- Claim C7, amended: with both bounds supplied, a candidate record is
included exactly when `date_from ≤ cocoa_to_datetime creation ≤ date_to`
as full datetime comparisons (the bounds sit at midnight of the given
calendar dates, so a record later in the day than midnight of `date_to` is
excluded even though its calendar date equals `date_to`; the lower bound is
calendar-inclusive). -/
theorem claim_C7 (f : FileInput) (df dt : Int) (r : ConversationRecord)
    (h : (extract_conversation true f initState).1 = some r) :
    (extract_all true (some df) (some dt) [f]).conversations =
      if df ≤ cocoa_to_datetime r.creation_date ∧
          cocoa_to_datetime r.creation_date ≤ dt then [r] else [] :=
  extract_all_singleton f df dt r h

/-- Claim C7, counterexample: a record created at noon on 2025-01-31 —
whose creation timestamp converts to the calendar date 2025-01-31, inside
the inclusive bound [2025-01-01, 2025-01-31] — is nevertheless excluded,
because the code compares full datetimes against the midnight bound. -/
theorem claim_C7_counterexample :
    calendarDay date20250101 ≤
      calendarDay (cocoa_to_datetime (date20250131 + 43200)) ∧
    calendarDay (cocoa_to_datetime (date20250131 + 43200)) ≤
      calendarDay date20250131 ∧
    (extract_all true (some date20250101) (some date20250131)
        [simpleFile "c7bad.json" (date20250131 + 43200)]).conversations
      = [] := by
  refine ⟨by decide, by decide, ?_⟩
  rw [extract_all_singleton _ _ _ _
    (simpleFile_extracts "c7bad.json" (date20250131 + 43200))]
  rw [if_neg (by decide)]

/-- Claim C7, witness: a record converting to 2025-01-15 is included for
bounds [2025-01-01, 2025-01-31] and excluded when `date_to` is
2025-01-10. -/
theorem claim_C7_witness :
    (extract_all true (some date20250101) (some date20250131)
        [simpleFile "c7.json" (date20250115 + 43200)]).conversations
      = [simpleRec "c7.json" (date20250115 + 43200)] ∧
    (extract_all true (some date20250101) (some date20250110)
        [simpleFile "c7.json" (date20250115 + 43200)]).conversations
      = [] := by
  constructor
  · rw [claim_C7 _ _ _ _ (simpleFile_extracts "c7.json" (date20250115 + 43200))]
    rw [if_pos (by decide)]
  · rw [claim_C7 _ _ _ _ (simpleFile_extracts "c7.json" (date20250115 + 43200))]
    rw [if_neg (by decide)]

/-- The malformed branch of `extract_conversation` (lines 334-340). -/
theorem extract_conversation_malformed (ch : Bool) (f : FileInput)
    (s : ExtractorState) (h : f.doc = .malformed) :
    (extract_conversation ch f s).1 = none ∧
    ((extract_conversation ch f s).2).stats.failed_files =
      s.stats.failed_files + 1 ∧
    ((extract_conversation ch f s).2).stats.errors =
      s.stats.errors ++ [errMsg f] ∧
    ((extract_conversation ch f s).2).stats.processed_files =
      s.stats.processed_files + 1 := by
  obtain ⟨name, path, hash, doc⟩ := f
  simp only at h
  subst h
  cases ch <;> simp [extract_conversation, errMsg]

theorem extractAllLoop_bad_good {b g : FileInput} {r : ConversationRecord}
    (s : ExtractorState) (hb : b.doc = .malformed)
    (hg : (extract_conversation true g initState).1 = some r) :
    (extractAllLoop true none none [b, g] s).conversations =
      s.conversations ++ [r] ∧
    (extractAllLoop true none none [b, g] s).stats.failed_files =
      s.stats.failed_files + 1 ∧
    (extractAllLoop true none none [b, g] s).stats.errors =
      s.stats.errors ++ [errMsg b] := by
  obtain ⟨hb1, hb2, hb3, _⟩ := extract_conversation_malformed true b s hb
  simp only [extractAllLoop]
  rw [extractAllStep_none none none hb1]
  have hg' : (extract_conversation true g
      (extract_conversation true b s).2).1 = some r :=
    (extract_conversation_fst_indep g _ initState).trans hg
  rw [extractAllStep_some_nodates hg']
  obtain ⟨hf, he⟩ := extract_conversation_some_stats true g _ r hg'
  refine ⟨?_, ?_, ?_⟩
  · rw [extract_conversation_conversations, extract_conversation_conversations]
  · rw [show ({ (extract_conversation true g (extract_conversation true b s).2).2
        with conversations :=
          ((extract_conversation true g (extract_conversation true b s).2).2).conversations
            ++ [r] } : ExtractorState).stats =
        ((extract_conversation true g (extract_conversation true b s).2).2).stats
      from rfl]
    rw [hf, hb2]
  · rw [show ({ (extract_conversation true g (extract_conversation true b s).2).2
        with conversations :=
          ((extract_conversation true g (extract_conversation true b s).2).2).conversations
            ++ [r] } : ExtractorState).stats =
        ((extract_conversation true g (extract_conversation true b s).2).2).stats
      from rfl]
    rw [he, hb3]

/-- Claim C8: a malformed document makes `extract_conversation` return none
while incrementing `failed_files` and recording exactly one error, and a
run over one malformed and one well-formed document yields exactly one
record, one counted failure and one recorded error. -/
theorem claim_C8 :
    (∀ (ch : Bool) (f : FileInput) (s : ExtractorState), f.doc = .malformed →
      (extract_conversation ch f s).1 = none ∧
      ((extract_conversation ch f s).2).stats.failed_files =
        s.stats.failed_files + 1 ∧
      ((extract_conversation ch f s).2).stats.errors =
        s.stats.errors ++ [errMsg f] ∧
      ((extract_conversation ch f s).2).stats.processed_files =
        s.stats.processed_files + 1) ∧
    (∀ (g b : FileInput) (r : ConversationRecord), b.doc = .malformed →
      (extract_conversation true g initState).1 = some r →
      (extract_all true none none [b, g]).conversations = [r] ∧
      (extract_all true none none [b, g]).stats.failed_files = 1 ∧
      ((extract_all true none none [b, g]).stats.errors).length = 1) := by
  constructor
  · exact extract_conversation_malformed
  · intro g b r hb hg
    obtain ⟨h1, h2, h3⟩ := extractAllLoop_bad_good
      ({ initState with stats := { initState.stats with
          total_files := ([b, g] : List FileInput).length } }) hb hg
    simp only [extract_all]
    rw [h1, h2, h3]
    refine ⟨?_, ?_, ?_⟩
    · simp [initState]
    · simp [initState]
    · simp [initState]

def badFile : FileInput :=
  { name := "bad.json", path := "/d/bad.json", hash := "dd",
    doc := .malformed }

/-- Claim C8, witness: one well-formed and one malformed document. -/
theorem claim_C8_witness :
    badFile.doc = Document.malformed ∧
    (extract_conversation true (simpleFile "good.json" 50) initState).1 =
      some (simpleRec "good.json" 50) ∧
    ((extract_all true none none [badFile, simpleFile "good.json" 50]).conversations
        = [simpleRec "good.json" 50] ∧
      (extract_all true none none
        [badFile, simpleFile "good.json" 50]).stats.failed_files = 1 ∧
      ((extract_all true none none
        [badFile, simpleFile "good.json" 50]).stats.errors).length = 1) :=
  ⟨rfl, simpleFile_extracts "good.json" 50,
    claim_C8.2 (simpleFile "good.json" 50) badFile (simpleRec "good.json" 50)
      rfl (simpleFile_extracts "good.json" 50)⟩

theorem extractAllStep_conversations_cases (ch : Bool) (df : Int)
    (dto : Option Int) (f : FileInput) (s : ExtractorState) :
    (extractAllStep ch (some df) dto f s).conversations = s.conversations ∨
    ∃ conv, (extract_conversation ch f s).1 = some conv ∧
      ¬ (cocoa_to_datetime conv.creation_date < df) ∧
      (extractAllStep ch (some df) dto f s).conversations =
        s.conversations ++ [conv] := by
  cases hr : (extract_conversation ch f s).1 with
  | none =>
    left
    rw [extractAllStep_none (some df) dto hr]
    exact extract_conversation_conversations ch f s
  | some conv =>
    unfold extractAllStep
    simp only [hr]
    by_cases h1 : beforeFrom (some df) (cocoa_to_datetime conv.creation_date)
    · left
      simp only [Option.isSome_some, Bool.true_or, if_true, h1]
      exact extract_conversation_conversations ch f s
    · by_cases h2 : afterTo dto (cocoa_to_datetime conv.creation_date)
      · left
        simp only [Option.isSome_some, Bool.true_or, if_true, h1, h2]
        simp only [Bool.false_eq_true, if_false, if_true]
        exact extract_conversation_conversations ch f s
      · right
        refine ⟨conv, rfl, ?_, ?_⟩
        · simp [beforeFrom] at h1
          omega
        · simp only [Option.isSome_some, Bool.true_or, if_true, h1, h2]
          simp only [Bool.false_eq_true, if_false]
          rw [extract_conversation_conversations]

theorem extractAllLoop_creation_ne (ch : Bool) (df : Int) (dto : Option Int)
    (hdf : 0 < df) :
    ∀ (files : List FileInput) (s : ExtractorState) (c : ConversationRecord),
      c ∈ (extractAllLoop ch (some df) dto files s).conversations →
      c ∈ s.conversations ∨ c.creation_date ≠ 0 := by
  intro files
  induction files with
  | nil =>
    intro s c hc
    simp only [extractAllLoop] at hc
    exact Or.inl hc
  | cons f rest ih =>
    intro s c hc
    simp only [extractAllLoop] at hc
    rcases ih (extractAllStep ch (some df) dto f s) c hc with hmem | hne
    · rcases extractAllStep_conversations_cases ch df dto f s with hcase | hcase
      · rw [hcase] at hmem
        exact Or.inl hmem
      · obtain ⟨conv, _, hge, heq⟩ := hcase
        rw [heq] at hmem
        rcases List.mem_append.mp hmem with hmem | hmem
        · exact Or.inl hmem
        · rcases List.mem_singleton.mp hmem with rfl
          right
          intro hzero
          rw [hzero] at hge
          simp [cocoa_to_datetime, cocoa_epoch] at hge
          omega
    · exact Or.inr hne

/-- Claim C9: a record whose `creation_date` is 0 converts to the epoch
date 2001-01-01 itself, so any `date_from` bound after the epoch excludes
every record with unknown creation date from the run's output. -/
theorem claim_C9 (files : List FileInput) (df : Int) (dto : Option Int)
    (ch : Bool) (hdf : 0 < df) :
    cocoa_to_datetime 0 = cocoa_epoch ∧
    ∀ c ∈ (extract_all ch (some df) dto files).conversations,
      c.creation_date ≠ 0 := by
  refine ⟨rfl, ?_⟩
  intro c hc
  simp only [extract_all] at hc
  rw [List.mem_insertionSort] at hc
  rcases extractAllLoop_creation_ne ch df dto hdf files _ c hc with h | h
  · simp [initState] at h
  · exact h

/-- Claim C9, witness: one document with `creation_date = 0` and a
`date_from` one day after the epoch. -/
theorem claim_C9_witness :
    (0 : Int) < 86400 ∧
    (cocoa_to_datetime 0 = cocoa_epoch ∧
      ∀ c ∈ (extract_all true (some 86400) none
          [simpleFile "c9.json" 0]).conversations,
        c.creation_date ≠ 0) :=
  ⟨by decide, claim_C9 [simpleFile "c9.json" 0] 86400 none true (by decide)⟩

theorem extractAllStep_stats (ch : Bool) (dfo dto : Option Int)
    (f : FileInput) (s : ExtractorState) :
    (extractAllStep ch dfo dto f s).stats =
      ((extract_conversation ch f s).2).stats := by
  unfold extractAllStep
  cases hr : (extract_conversation ch f s).1 with
  | none => simp [hr]
  | some conv =>
    simp only [hr]
    split <;> try rfl
    split <;> try rfl
    split <;> rfl

theorem extractAllLoop_processed (ch : Bool) (dfo dto : Option Int) :
    ∀ (files : List FileInput) (s : ExtractorState),
      (extractAllLoop ch dfo dto files s).stats.processed_files =
        s.stats.processed_files + files.length := by
  intro files
  induction files with
  | nil => intro s; simp [extractAllLoop]
  | cons f rest ih =>
    intro s
    simp only [extractAllLoop]
    rw [ih, extractAllStep_stats, extract_conversation_processed]
    simp only [List.length_cons]
    omega

theorem extractAllLoop_failed_processed (ch : Bool) (dfo dto : Option Int) :
    ∀ (files : List FileInput) (s : ExtractorState),
      s.stats.failed_files ≤ s.stats.processed_files →
      (extractAllLoop ch dfo dto files s).stats.failed_files ≤
        (extractAllLoop ch dfo dto files s).stats.processed_files := by
  intro files
  induction files with
  | nil => intro s h; simpa [extractAllLoop] using h
  | cons f rest ih =>
    intro s h
    simp only [extractAllLoop]
    apply ih
    rw [extractAllStep_stats, extract_conversation_processed]
    have h1 := extract_conversation_failed_le ch f s
    omega

/-- Claim C10: `processed_files` is incremented once per attempted file —
before any parsing can fail — so after a run it equals the number of files
attempted (successes plus failures), and `failed_files` never exceeds
it. -/
theorem claim_C10 (ch : Bool) (dfo dto : Option Int)
    (files : List FileInput) :
    (extract_all ch dfo dto files).stats.processed_files = files.length ∧
    (extract_all ch dfo dto files).stats.failed_files ≤
      (extract_all ch dfo dto files).stats.processed_files := by
  constructor
  · simp only [extract_all]
    rw [extractAllLoop_processed]
    simp [initState]
  · simp only [extract_all]
    apply extractAllLoop_failed_processed
    simp [initState]

end ChatGPTParser
